import Mathlib

/-!
Verification of the maplibre-contour slope-angle pipeline.

Shallow embedding conventions:
* A JavaScript number that may be NaN is modelled as `Option ℝ`: `none` is the
  NaN sentinel, `some v` a (finite) numeric value.  Floating-point rounding of
  double-precision arithmetic is idealised to exact real arithmetic, except for
  the `Float32Array` store in `materialize`, which is modelled explicitly by
  round-to-nearest-even narrowing (`f32round`), because the narrowing is
  observable through the public interface.
* Byte buffers (`Uint8Array`) are `List ℕ`; a store into a `Uint8Array` slot
  reduces the stored integer modulo 256, as the JavaScript ToUint8 conversion
  does.
* Promise-returning code is modelled by `Except String` values: a rejected
  promise is `Except.error`, carrying the error message.
* The per-context mutable state of the RPC bridge (the correlation-id counter
  and the pending-resolver table) is threaded explicitly.
-/

namespace MaplibreContour

/-- An elevation grid: dimensions plus a sample accessor.  Corresponds to the
HeightTile class of height-tile.ts (only its interface is needed here):
`get` may be queried at any integer coordinates and returns NaN (`none`)
where no data is available. -/
structure HeightTile where
  width : ℕ
  height : ℕ
  get : ℤ → ℤ → Option ℝ

/-- A tile of slope-angle values, from slope-angle-tile.ts: dimensions plus a
per-pixel accessor returning degrees or NaN. -/
structure SlopeAngleTile where
  width : ℕ
  height : ℕ
  get : ℤ → ℤ → Option ℝ

/-- Embedding of SlopeAngleTile.fromHeightTile (slope-angle-tile.ts).
Out-of-bounds pixels are NaN; otherwise the eight neighbourhood samples are
read, and if any is NaN the pixel is NaN (the source builds the list
`values = [z1,z2,z3,z4,z6,z7,z8,z9]` and tests `values.some(isNaN)`);
otherwise the slope angle is computed by Horn's method.  `Option.iget`
extracts the numeric value, which the preceding test guarantees exists. -/
noncomputable def SlopeAngleTile.fromHeightTile (heightTile : HeightTile)
    (pixelSize : ℝ) : SlopeAngleTile :=
  ⟨heightTile.width, heightTile.height, fun x y =>
    if x < 0 ∨ (heightTile.width : ℤ) ≤ x ∨ y < 0 ∨ (heightTile.height : ℤ) ≤ y then
      none
    else
      let z1 := heightTile.get (x - 1) (y - 1)
      let z2 := heightTile.get x (y - 1)
      let z3 := heightTile.get (x + 1) (y - 1)
      let z4 := heightTile.get (x - 1) y
      let z6 := heightTile.get (x + 1) y
      let z7 := heightTile.get (x - 1) (y + 1)
      let z8 := heightTile.get x (y + 1)
      let z9 := heightTile.get (x + 1) (y + 1)
      let values := [z1, z2, z3, z4, z6, z7, z8, z9]
      if values.any Option.isNone then
        none
      else
        let dzdx := ((z3.iget + 2 * z6.iget + z9.iget) -
            (z1.iget + 2 * z4.iget + z7.iget)) / (8 * pixelSize)
        let dzdy := ((z7.iget + 2 * z8.iget + z9.iget) -
            (z1.iget + 2 * z2.iget + z3.iget)) / (8 * pixelSize)
        let slopeRadians := Real.arctan (Real.sqrt (dzdx * dzdx + dzdy * dzdy))
        some ((slopeRadians * 180) / Real.pi)⟩

/-- The per-pixel value demanded by claim C1, written from the claim's own
words: NaN outside the tile rectangle, NaN as soon as one of the eight
neighbourhood samples is NaN, and otherwise Horn's estimator
atan(sqrt(dzdx^2 + dzdy^2)) scaled to degrees. -/
noncomputable def hornSlopeSpec (heightTile : HeightTile) (pixelSize : ℝ)
    (x y : ℤ) : Option ℝ :=
  if x < 0 ∨ (heightTile.width : ℤ) ≤ x ∨ y < 0 ∨ (heightTile.height : ℤ) ≤ y then
    none
  else
    match heightTile.get (x - 1) (y - 1), heightTile.get x (y - 1),
      heightTile.get (x + 1) (y - 1), heightTile.get (x - 1) y,
      heightTile.get (x + 1) y, heightTile.get (x - 1) (y + 1),
      heightTile.get x (y + 1), heightTile.get (x + 1) (y + 1) with
    | some z1, some z2, some z3, some z4, some z6, some z7, some z8, some z9 =>
      let dzdx := ((z3 + 2 * z6 + z9) - (z1 + 2 * z4 + z7)) / (8 * pixelSize)
      let dzdy := ((z7 + 2 * z8 + z9) - (z1 + 2 * z2 + z3)) / (8 * pixelSize)
      some (Real.arctan (Real.sqrt (dzdx ^ 2 + dzdy ^ 2)) * 180 / Real.pi)
    | _, _, _, _, _, _, _, _ => none

/-- The R=G=B byte the code stores for one pixel: 0 for NaN, otherwise
round(min(angle / maxAngle, 1) * 255), reduced modulo 256 by the JavaScript
ToUint8 conversion performed by the Uint8Array store. -/
noncomputable def grayByte (maxAngle : ℝ) (angle : Option ℝ) : ℕ :=
  (((match angle with
    | none => 0
    | some a => round (min (a / maxAngle) 1 * 255)) : ℤ) % 256).toNat

/-- The alpha byte: 0 for NaN (transparent), 255 otherwise. -/
def alphaByte (angle : Option ℝ) : ℕ :=
  match angle with
  | none => 0
  | some _ => 255

/-- The four RGBA bytes one iteration of the toImageBuffer loop appends. -/
noncomputable def pixelBytes (maxAngle : ℝ) (angle : Option ℝ) : List ℕ :=
  [grayByte maxAngle angle, grayByte maxAngle angle, grayByte maxAngle angle,
    alphaByte angle]

/-- Embedding of SlopeAngleTile.toImageBuffer (slope-angle-tile.ts): a
row-major RGBA byte list, outer loop over y, inner loop over x. -/
noncomputable def SlopeAngleTile.toImageBuffer (t : SlopeAngleTile)
    (maxAngle : ℝ) : List ℕ :=
  (List.range t.height).flatMap fun y =>
    (List.range t.width).flatMap fun x => pixelBytes maxAngle (t.get x y)

/-- The buffer demanded by claim C2, written from the claim's words: per
pixel, R=G=B = round(clamp(angle / maxAngle, 0, 1) * 255) and A = 255, or
(0,0,0,0) for a NaN pixel. -/
noncomputable def toImageBufferClaim (t : SlopeAngleTile) (maxAngle : ℝ) :
    List ℕ :=
  (List.range t.height).flatMap fun y =>
    (List.range t.width).flatMap fun x =>
      match t.get x y with
      | none => [0, 0, 0, 0]
      | some a =>
        let v := (round (min (max (a / maxAngle) 0) 1 * 255)).toNat
        [v, v, v, 255]

/-- A one-pixel tile whose angle is the (negative) value -45. -/
noncomputable def tileNeg : SlopeAngleTile := ⟨1, 1, fun _ _ => some (-45)⟩

/-- Round a real to the nearest integer, ties to even, as IEEE 754
round-to-nearest-even demands for a significand exactly halfway between two
representable values. -/
noncomputable def rne (x : ℝ) : ℤ :=
  if Int.fract x = 1 / 2 then 2 * round (x / 2) else round x

/-- The narrowing a store into a Float32Array performs: round the 64-bit
value to the nearest IEEE-754 binary32 value (24-bit significand, minimum
exponent -126 below which subnormal granularity takes over).  Overflow to
the binary32 infinity cannot be expressed for real-valued data and is
idealised away; NaN is the `none` case of the surrounding `Option`. -/
noncomputable def f32round (x : ℝ) : ℝ :=
  if x = 0 then 0
  else
    (rne (x * 2 ^ ((23 : ℤ) - max (Int.log 2 |x|) (-126))) : ℝ) *
      2 ^ (max (Int.log 2 |x|) (-126) - 23)

/-- The Float32Array backing the materialized tile: every pixel evaluated
once in row-major order, each stored value narrowed to binary32. -/
noncomputable def materializeData (t : SlopeAngleTile) : List (Option ℝ) :=
  (List.range t.height).flatMap fun (y : ℕ) =>
    (List.range t.width).map fun (x : ℕ) => Option.map f32round (t.get x y)

/-- Embedding of SlopeAngleTile.materialize (slope-angle-tile.ts): the
returned tile reads data[y * width + x] with no bounds check.  A read
outside the backing array yields undefined, which this model conflates with
NaN (`none`); no claim distinguishes the two. -/
noncomputable def SlopeAngleTile.materialize (t : SlopeAngleTile) :
    SlopeAngleTile :=
  ⟨t.width, t.height, fun x y =>
    if 0 ≤ y * (t.width : ℤ) + x then
      ((materializeData t)[(y * (t.width : ℤ) + x).toNat]?).getD none
    else none⟩

/-- The string the constructor tries at attempt k: the base id itself first,
then the base id with the integer suffix k (the source's `id + i` with the
counter i starting at 1). -/
def candidate (id : String) : ℕ → String
  | 0 => id
  | k + 1 => id ++ Nat.repr (k + 1)

/-- The constructor's dedup loop (slope-angle-source.ts lines 95-99),
expressed with the attempt counter k standing for the source's mutable
(protocolPrefix, i) pair, and fuel bounding the iteration count; the fuel
used below (one more than the registry size) is always enough, see
dedupBase_not_mem. -/
def freshAux (used : Finset String) (id : String) : ℕ → ℕ → String
  | 0, k => candidate id k
  | fuel + 1, k =>
    if candidate id k ∈ used then freshAux used id fuel (k + 1)
    else candidate id k

/-- The deduplicated protocol base the constructor settles on. -/
def dedupBase (used : Finset String) (id : String) : String :=
  freshAux used id (used.card + 1) 0

/-- Embedding of the SlopeAngleSource constructor (slope-angle-source.ts):
dedups the base id against the module-level `used` registry, registers the
result, and derives slopeProtocolId by appending "-slope".  Returns the
slopeProtocolId together with the updated registry. -/
def constructSlopeAngleSource (used : Finset String) (id : String) :
    String × Finset String :=
  (dedupBase used id ++ "-slope", insert (dedupBase used id) used)

/-- The correlation id getData generates from the module-level counter:
the fixed namespace followed by the decimal rendering of the counter. -/
def mkId (n : ℕ) : String :=
  "maplibre-contours-get-data-" ++ Nat.repr n

/-- The requesting side's per-context mutable state
(remote-protocol-handler.ts): the monotone id counter and the pending
resolver table (the `callbacks` object), keyed by correlation-id string.
R is the type standing for a registered resolver. -/
structure BridgeState (R : Type) where
  counter : ℕ
  callbacks : String → Option R

/-- What a getData call hands back: a direct https fetch, or a pending
promise identified by its correlation id.  The pending constructor carries
no error alternative: the registered entry can only ever be resolved. -/
inductive GetDataOutcome where
  | direct (url : String)
  | pending (eventId : String)
deriving DecidableEq

/-- Embedding of getData (remote-protocol-handler.ts): https urls are
fetched directly; any other url posts {id, payload:{url}} across the
boundary, registers the promise resolver under the fresh id, and bumps the
counter.  The JavaScript url.startsWith test is modelled as the character
list "https://".data being a prefix of the url's characters. -/
def getData {R : Type} (st : BridgeState R) (url : String) (resolve : R) :
    BridgeState R × GetDataOutcome :=
  if "https://".data <+: url.data then (st, GetDataOutcome.direct url)
  else
    (⟨st.counter + 1,
        fun s => if s = mkId st.counter then some resolve else st.callbacks s⟩,
      GetDataOutcome.pending (mkId st.counter))

/-- Embedding of the requesting side's message listener
(remote-protocol-handler.ts lines 9-12): on {id, payload}, invoke the
pending resolver for id if there is one, then delete the entry (the
source's delete runs unconditionally; deleting an absent key is a no-op).
The returned option records the single invocation performed, if any. -/
def onMessage {R P : Type} (st : BridgeState R) (id : String) (payload : P) :
    BridgeState R × Option (String × R × P) :=
  (⟨st.counter, fun s => if s = id then none else st.callbacks s⟩,
    (st.callbacks id).map fun r => (id, r, payload))

/-- Process a list of incoming messages in order, collecting every resolver
invocation the listener performs. -/
def runMessages {R P : Type} (st : BridgeState R) :
    List (String × P) → BridgeState R × List (String × R × P)
  | [] => (st, [])
  | (id, p) :: rest =>
    ((runMessages (onMessage st id p).1 rest).1,
      ((onMessage st id p).2).toList ++ (runMessages (onMessage st id p).1 rest).2)

/-- The reachable-state invariant of the bridge: every pending correlation
id was minted by an earlier getData call, i.e. carries a counter value
below the current one. -/
def BridgeInv {R : Type} (st : BridgeState R) : Prop :=
  ∀ s : String, (st.callbacks s).isSome → ∃ k < st.counter, s = mkId k

/-- Embedding of the responding side's listener (protocol-handler.ts):
messages without the namespace are ignored (no reply); a missing scheme
handler throws (the template string interpolates e.data.url, a field the
message does not carry, hence the literal "undefined"); a handler rejection
propagates out of the listener; only a fulfilled handler posts the
{id, payload} reply.  An Except.error therefore means no reply message is
ever posted for the request. -/
def hostMessageHandler {P : Type}
    (getProtocol : String → Option (String → Except String P))
    (id : String) (url : String) : Except String (Option (String × P)) :=
  if ¬ ("maplibre-contours-get-data-".data <+: id.data) then Except.ok none
  else
    match getProtocol url with
    | none => Except.error "No registered protocol handler for undefined"
    | some protocol =>
      match protocol url with
      | Except.error e => Except.error e
      | Except.ok result => Except.ok (some (id, result))

/-- A concrete bridge state with one pending resolver, for the witnesses:
counter 1, the id minted from counter value 0 mapping to resolver 7. -/
def stOne : BridgeState ℕ :=
  ⟨1, fun s => if s = mkId 0 then some 7 else none⟩

/-- Modelled from the spec: the Timing Record is an opaque success/error
measurement (performance.ts is not part of the sources); timer.finish and
timer.error produce the two variants. -/
inductive Timing where
  | finish
  | error
deriving DecidableEq

/-- Modelled from the spec: raw DEM byte decoding is a black-box service,
so fetchAndParseTile's decoded result is taken to be an elevation grid
already, and HeightTile.fromRawDem wraps it unchanged. -/
def HeightTile.fromRawDem (tile : HeightTile) : HeightTile := tile

/-- Modelled from the spec (section 4.1, height-tile.ts is not part of the
sources): combine(center, neighbors) is none when the center is absent;
otherwise a grid with the center's dimensions whose sample delegates to the
center in bounds, to the compass neighbour matching the offset's sign
pattern on the one-pixel ring (translated by the shared width/height,
NaN if that neighbour is absent), and is NaN beyond the ring.  The argument
list is in the source's fetch order nw, n, ne, w, c, e, sw, s, se. -/
def HeightTile.combineNeighbors (neighbors : List (Option HeightTile)) :
    Option HeightTile :=
  match neighbors with
  | [nw, n, ne, w, c, e, sw, s, se] =>
    match c with
    | none => none
    | some center =>
      some ⟨center.width, center.height, fun x y =>
        if 0 ≤ x ∧ x < (center.width : ℤ) ∧ 0 ≤ y ∧ y < (center.height : ℤ) then
          center.get x y
        else if x < -1 ∨ (center.width : ℤ) < x ∨ y < -1 ∨ (center.height : ℤ) < y then
          none
        else
          let sx : ℤ := if x < 0 then -1 else if (center.width : ℤ) ≤ x then 1 else 0
          let sy : ℤ := if y < 0 then -1 else if (center.height : ℤ) ≤ y then 1 else 0
          let chosen : Option HeightTile :=
            if sy = -1 then (if sx = -1 then nw else if sx = 1 then ne else n)
            else if sy = 1 then (if sx = -1 then sw else if sx = 1 then se else s)
            else (if sx = -1 then w else if sx = 1 then e else some center)
          match chosen with
          | none => none
          | some nb => nb.get (x - sx * center.width) (y - sy * center.height)⟩
  | _ => none

/-- The response slopeProtocolV4 resolves with: the RGBA bytes and the fixed
cache-control header.  The absolute expiry timestamp (now + 3600 s) depends
on the wall clock and stays outside the embedding. -/
structure SlopeResponse where
  data : List ℕ
  cacheControl : String

/-- The finally-block's timingCallbacks.forEach(cb): callbacks run in
order; a callback that throws aborts the iteration and its exception
escapes the forEach. -/
def runCallbacks (cbs : List (Timing → Except String Unit)) (t : Timing) :
    Except String Unit :=
  match cbs with
  | [] => Except.ok ()
  | cb :: rest =>
    match cb t with
    | Except.error e => Except.error e
    | Except.ok _ => runCallbacks rest t

/-- Embedding of SlopeAngleSource.slopeProtocolV4 (slope-angle-source.ts).
The z/x/y coordinates and the maxAngle/pixelSize query parameters are taken
already extracted from the request url (parseUrl and URLSearchParams are
boundary plumbing none of the claims touch).  The nine fetches of
Promise.allSettled appear as the list of their settled outcomes in source
order; fulfilled slots are decoded to height tiles, rejected slots become
undefined.  The try/catch/finally shape: the try body either throws the
center-missing error or returns the response with the finish timing; the
catch path records the error timing and rethrows; the finally block runs
the timing callbacks, and an exception escaping it replaces the completion
of the whole request. -/
noncomputable def slopeProtocolV4
    (fetchAndParseTile : ℤ → ℤ → ℤ → Except String HeightTile)
    (timingCallbacks : List (Timing → Except String Unit))
    (z x y : ℤ) (maxAngle pixelSize : ℝ) : Except String SlopeResponse :=
  let neighbors : List (Except String HeightTile) :=
    [fetchAndParseTile z (x - 1) (y - 1), fetchAndParseTile z x (y - 1),
      fetchAndParseTile z (x + 1) (y - 1), fetchAndParseTile z (x - 1) y,
      fetchAndParseTile z x y, fetchAndParseTile z (x + 1) y,
      fetchAndParseTile z (x - 1) (y + 1), fetchAndParseTile z x (y + 1),
      fetchAndParseTile z (x + 1) (y + 1)]
  let heightTiles : List (Option HeightTile) :=
    neighbors.map fun result =>
      match result with
      | Except.ok v => some (HeightTile.fromRawDem v)
      | Except.error _ => none
  let body : Except String (SlopeResponse × Timing) :=
    match HeightTile.combineNeighbors heightTiles with
    | none => Except.error "Center tile is required but was not available"
    | some combinedHeightTile =>
      let slopeAngleTile :=
        SlopeAngleTile.fromHeightTile combinedHeightTile pixelSize
      let imageBuffer := slopeAngleTile.toImageBuffer maxAngle
      Except.ok (⟨imageBuffer, "public, max-age=3600"⟩, Timing.finish)
  let outcome : Except String SlopeResponse :=
    match body with
    | Except.ok (r, _) => Except.ok r
    | Except.error e => Except.error e
  let timing : Timing :=
    match body with
    | Except.ok (_, t) => t
    | Except.error _ => Timing.error
  match runCallbacks timingCallbacks timing with
  | Except.error e => Except.error e
  | Except.ok _ => outcome

/-- A flat 2x2 elevation grid used in the concrete orchestrator runs. -/
noncomputable def flatTile : HeightTile := ⟨2, 2, fun _ _ => some 100⟩

/-- A fetch collaborator whose center tile (0, 0) rejects with "boom" while
every other tile fulfils. -/
noncomputable def fetchCenterBoom : ℤ → ℤ → ℤ → Except String HeightTile :=
  fun _ x y => if x = 0 ∧ y = 0 then Except.error "boom" else Except.ok flatTile

/-- The two shapes of a legacy v3 callback invocation: a success call
arg2(undefined, data, cacheControl, expires), or a failure call arg2(err). -/
inductive V3Call where
  | success (r : SlopeResponse)
  | failure (e : String)

/-- Embedding of the v3compat legacy-callback path (slope-angle-source.ts):
v4(...) .then(onFulfilled, onRejected) .catch(onError), where each handler
invokes the user callback and may itself throw; a throw from either then
handler falls through to the trailing catch, which invokes the callback
again with the thrown value.  The result lists the callback invocations in
order. -/
def v3compatInvocations (v4result : Except String SlopeResponse)
    (callback : V3Call → Except String Unit) : List V3Call :=
  match v4result with
  | Except.ok r =>
    match callback (V3Call.success r) with
    | Except.ok _ => [V3Call.success r]
    | Except.error e => [V3Call.success r, V3Call.failure e]
  | Except.error e =>
    match callback (V3Call.failure e) with
    | Except.ok _ => [V3Call.failure e]
    | Except.error e2 => [V3Call.failure e, V3Call.failure e2]

/-- C1: at every coordinate, the tile built by fromHeightTile agrees with the
claim's description: NaN outside the rectangle, NaN when any of the eight
neighbourhood samples is NaN, and Horn's estimator otherwise. -/
theorem fromHeightTile_matches_horn_spec (heightTile : HeightTile)
    (pixelSize : ℝ) (x y : ℤ) :
    (SlopeAngleTile.fromHeightTile heightTile pixelSize).get x y =
      hornSlopeSpec heightTile pixelSize x y := by
  unfold SlopeAngleTile.fromHeightTile hornSlopeSpec
  by_cases hb : x < 0 ∨ (heightTile.width : ℤ) ≤ x ∨ y < 0 ∨ (heightTile.height : ℤ) ≤ y
  · simp [hb]
  · simp only [hb, if_false]
    rcases heightTile.get (x - 1) (y - 1) with _ | z1 <;>
      rcases heightTile.get x (y - 1) with _ | z2 <;>
      rcases heightTile.get (x + 1) (y - 1) with _ | z3 <;>
      rcases heightTile.get (x - 1) y with _ | z4 <;>
      rcases heightTile.get (x + 1) y with _ | z6 <;>
      rcases heightTile.get (x - 1) (y + 1) with _ | z7 <;>
      rcases heightTile.get x (y + 1) with _ | z8 <;>
      rcases heightTile.get (x + 1) (y + 1) with _ | z9 <;>
      simp [Option.iget, sq]

/-- Positional lookup into a concatenation of equal-length chunks: the byte at
offset c * i + j of the flattened list is byte j of chunk i. -/
theorem flatMap_range_getElem (c : ℕ) :
    ∀ (n : ℕ) (g : ℕ → List α), (∀ i, (g i).length = c) →
      ∀ (i j : ℕ), i < n → j < c →
        ((List.range n).flatMap g)[c * i + j]? = (g i)[j]?
  | 0, _, _, _, _, hi, _ => absurd hi (Nat.not_lt_zero _)
  | n + 1, g, hg, i, j, hi, hj => by
    rw [List.range_succ_eq_map, List.flatMap_cons, List.flatMap_map]
    match i with
    | 0 =>
      rw [Nat.mul_zero, Nat.zero_add, List.getElem?_append_left (by rw [hg 0]; exact hj)]
    | i + 1 =>
      have hlen : (g 0).length ≤ c * (i + 1) + j := by
        rw [hg 0, Nat.mul_succ]
        omega
      rw [List.getElem?_append_right hlen, hg 0]
      have harith : c * (i + 1) + j - c = c * i + j := by
        rw [Nat.mul_succ]; omega
      rw [harith]
      exact flatMap_range_getElem c n (fun k => g (k + 1))
        (fun k => hg (k + 1)) i j (Nat.lt_of_succ_lt_succ hi) hj

/-- Length of a concatenation of n equal-length chunks. -/
theorem flatMap_range_length (c : ℕ) :
    ∀ (n : ℕ) (g : ℕ → List α), (∀ i, (g i).length = c) →
      ((List.range n).flatMap g).length = n * c
  | 0, _, _ => by simp
  | n + 1, g, hg => by
    rw [List.range_succ, List.flatMap_append, List.length_append,
      flatMap_range_length c n g hg]
    simp [hg n, Nat.succ_mul]

/-- C2, counterexample: toImageBuffer does not clamp the scaled angle from
below, so at angle -45 with maxAngle 45 the code stores round(-255) mod 256
= 1 in R, G and B, while the claim's clamp formula demands 0. -/
theorem toImageBuffer_claim_counterexample :
    SlopeAngleTile.toImageBuffer tileNeg 45 ≠ toImageBufferClaim tileNeg 45 := by
  have hmin : min ((-45 : ℝ) / 45) 1 = -1 := by
    rw [show ((-45 : ℝ) / 45) = -1 by norm_num, min_eq_left (by norm_num)]
  have hmax : max ((-45 : ℝ) / 45) 0 = 0 := by
    rw [show ((-45 : ℝ) / 45) = -1 by norm_num, max_eq_right (by norm_num)]
  have hr1 : List.range 1 = [0] := rfl
  have hcode : SlopeAngleTile.toImageBuffer tileNeg 45 = [1, 1, 1, 255] := by
    simp only [SlopeAngleTile.toImageBuffer, tileNeg, hr1,
      List.flatMap_cons, List.flatMap_nil, List.append_nil, pixelBytes,
      grayByte, alphaByte, hmin]
    norm_num
    rw [show ((-255 : ℝ)) = ((-255 : ℤ) : ℝ) by norm_num, round_intCast]
    decide
  have hclaim : toImageBufferClaim tileNeg 45 = [0, 0, 0, 255] := by
    simp only [toImageBufferClaim, tileNeg, hr1, List.flatMap_cons,
      List.flatMap_nil, List.append_nil, hmax]
    norm_num
  rw [hcode, hclaim]
  decide

/-- C2, amended: the buffer has exactly width * height * 4 bytes, and the
four bytes of pixel (x, y) sit at offset 4 * (y * width + x): R = G = B =
round(min(angle / maxAngle, 1) * 255) mod 256 (no lower clamp), and
A = 0 for NaN, 255 otherwise. -/
theorem toImageBuffer_bytes (t : SlopeAngleTile) (maxAngle : ℝ) :
    (t.toImageBuffer maxAngle).length = t.width * t.height * 4 ∧
    ∀ x y : ℕ, x < t.width → y < t.height →
      (t.toImageBuffer maxAngle)[4 * (y * t.width + x)]? =
          some (grayByte maxAngle (t.get x y)) ∧
      (t.toImageBuffer maxAngle)[4 * (y * t.width + x) + 1]? =
          some (grayByte maxAngle (t.get x y)) ∧
      (t.toImageBuffer maxAngle)[4 * (y * t.width + x) + 2]? =
          some (grayByte maxAngle (t.get x y)) ∧
      (t.toImageBuffer maxAngle)[4 * (y * t.width + x) + 3]? =
          some (alphaByte (t.get x y)) := by
  have hrow : ∀ y : ℕ,
      ((List.range t.width).flatMap fun x =>
        pixelBytes maxAngle (t.get x y)).length = t.width * 4 :=
    fun y => flatMap_range_length 4 t.width
      (fun x => pixelBytes maxAngle (t.get x y)) (fun _ => rfl)
  constructor
  · rw [SlopeAngleTile.toImageBuffer,
      flatMap_range_length (t.width * 4) t.height _ hrow]
    ring
  · intro x y hx hy
    have hpos : ∀ j : ℕ, j < 4 →
        (t.toImageBuffer maxAngle)[4 * (y * t.width + x) + j]? =
          (pixelBytes maxAngle (t.get x y))[j]? := by
      intro j hj
      have houter : 4 * (y * t.width + x) + j =
          (t.width * 4) * y + (4 * x + j) := by ring
      rw [SlopeAngleTile.toImageBuffer, houter,
        flatMap_range_getElem (t.width * 4) t.height _ hrow y (4 * x + j) hy
          (by omega),
        flatMap_range_getElem 4 t.width
          (fun x => pixelBytes maxAngle (t.get x y)) (fun _ => rfl) x j hx hj]
    exact ⟨hpos 0 (by omega), hpos 1 (by omega), hpos 2 (by omega),
      hpos 3 (by omega)⟩

/-- C2 witness: the amended byte layout evaluated on a concrete 1x1 NaN
tile. -/
theorem toImageBuffer_bytes_witness :
    (0 : ℕ) < 1 ∧
      ((SlopeAngleTile.mk 1 1 fun _ _ => none).toImageBuffer 45).length =
        1 * 1 * 4 ∧
      ((SlopeAngleTile.mk 1 1 fun _ _ => none).toImageBuffer 45)[
          4 * (0 * 1 + 0)]? =
        some (grayByte 45 ((SlopeAngleTile.mk 1 1 fun _ _ => none).get 0 0)) ∧
      ((SlopeAngleTile.mk 1 1 fun _ _ => none).toImageBuffer 45)[
          4 * (0 * 1 + 0) + 3]? =
        some (alphaByte ((SlopeAngleTile.mk 1 1 fun _ _ => none).get 0 0)) :=
  ⟨Nat.one_pos,
    (toImageBuffer_bytes (SlopeAngleTile.mk 1 1 fun _ _ => none) 45).1,
    ((toImageBuffer_bytes (SlopeAngleTile.mk 1 1 fun _ _ => none) 45).2
      0 0 Nat.one_pos Nat.one_pos).1,
    ((toImageBuffer_bytes (SlopeAngleTile.mk 1 1 fun _ _ => none) 45).2
      0 0 Nat.one_pos Nat.one_pos).2.2.2⟩

/-- Positional lookup into a row-major rectangle of values. -/
theorem rowMajor_getElem {α : Type} (w h : ℕ) (f : ℕ → ℕ → α) (a b : ℕ)
    (ha : a < w) (hb : b < h) :
    ((List.range h).flatMap fun y => (List.range w).map fun x => f x y)[
        b * w + a]? = some (f a b) := by
  have hlen : ∀ y : ℕ, ((List.range w).map fun x => f x y).length = w :=
    fun y => by simp
  have hmain := flatMap_range_getElem w h
    (fun y => (List.range w).map fun x => f x y) hlen b a hb ha
  rw [show b * w + a = w * b + a by ring, hmain, List.getElem?_map,
    List.getElem?_range ha]
  rfl

/-- Reading the materialized backing array at an in-range row-major index
returns the float32-narrowed pixel stored there. -/
theorem materializeData_getElem (t : SlopeAngleTile) (a b : ℕ)
    (ha : a < t.width) (hb : b < t.height) :
    (materializeData t)[b * t.width + a]? =
      some (Option.map f32round (t.get a b)) := by
  unfold materializeData
  exact rowMajor_getElem t.width t.height
    (fun x y => Option.map f32round (t.get x y)) a b ha hb

/-- C4, amended: at every in-bounds coordinate the materialized tile returns
the float32-narrowed value of the lazy tile (in particular NaN stays NaN,
and any value exactly representable in binary32 comes back unchanged). -/
theorem materialize_get_inBounds (t : SlopeAngleTile) (x y : ℤ)
    (hx0 : 0 ≤ x) (hx : x < (t.width : ℤ)) (hy0 : 0 ≤ y)
    (hy : y < (t.height : ℤ)) :
    (t.materialize).get x y = Option.map f32round (t.get x y) := by
  lift x to ℕ using hx0 with a
  lift y to ℕ using hy0 with b
  have ha : a < t.width := by exact_mod_cast hx
  have hb : b < t.height := by exact_mod_cast hy
  show (if 0 ≤ (b : ℤ) * (t.width : ℤ) + (a : ℤ) then
      ((materializeData t)[((b : ℤ) * (t.width : ℤ) + (a : ℤ)).toNat]?).getD none
    else none) = _
  rw [if_pos (by positivity),
    show ((b : ℤ) * (t.width : ℤ) + (a : ℤ)).toNat = b * t.width + a by
      rw [show ((b : ℤ) * (t.width : ℤ) + (a : ℤ)) =
          ((b * t.width + a : ℕ) : ℤ) by push_cast; ring, Int.toNat_natCast],
    materializeData_getElem t a b ha hb, Option.getD_some]

/-- C4 witness: the amended statement evaluated on a concrete 1x1 tile. -/
theorem materialize_get_inBounds_witness :
    (0 : ℤ) ≤ 0 ∧
      (0 : ℤ) < ((SlopeAngleTile.mk 1 1 fun _ _ => some (1 / 10)).width : ℤ) ∧
      (SlopeAngleTile.mk 1 1 fun _ _ => some (1 / 10)).materialize.get 0 0 =
        Option.map f32round
          ((SlopeAngleTile.mk 1 1 fun _ _ => some (1 / 10)).get 0 0) :=
  ⟨le_refl 0, by norm_num,
    materialize_get_inBounds (SlopeAngleTile.mk 1 1 fun _ _ => some (1 / 10))
      0 0 (le_refl 0) (by norm_num) (le_refl 0) (by norm_num)⟩

/-- The binary32 exponent of 1/10 is -4. -/
theorem log_tenth : Int.log 2 (1 / 10 : ℝ) = -4 := by
  have hpos : (0 : ℝ) < 1 / 10 := by norm_num
  have hlb : (-4 : ℤ) ≤ Int.log 2 (1 / 10 : ℝ) := by
    refine (Int.zpow_le_iff_le_log (by norm_num) hpos).mp ?_
    norm_num
  have hub : Int.log 2 (1 / 10 : ℝ) < -3 := by
    by_contra hcon
    push_neg at hcon
    have h8 : ((2 : ℕ) : ℝ) ^ (-3 : ℤ) ≤ 1 / 10 :=
      (Int.zpow_le_iff_le_log (by norm_num) hpos).mpr hcon
    norm_num at h8
  omega

/-- The value of the float32 narrowing at 1/10: the nearest binary32 value
is 13421773 / 2^27, which is not 1/10. -/
theorem f32round_tenth : f32round (1 / 10) = 13421773 / 134217728 := by
  have hne : (1 / 10 : ℝ) ≠ 0 := by norm_num
  have habs : |(1 / 10 : ℝ)| = 1 / 10 := abs_of_pos (by norm_num)
  have hmax : max (Int.log 2 |(1 / 10 : ℝ)|) (-126) = -4 := by
    rw [habs, log_tenth]; decide
  rw [f32round, if_neg hne, hmax,
    show ((23 : ℤ) - (-4)) = (27 : ℤ) by decide,
    show ((-4 : ℤ) - 23) = (-27 : ℤ) by decide,
    show (2 : ℝ) ^ (27 : ℤ) = 134217728 by norm_num,
    show (1 / 10 : ℝ) * 134217728 = 134217728 / 10 by ring]
  have hfract : Int.fract (134217728 / 10 : ℝ) ≠ 1 / 2 := by
    rw [Int.fract,
      show ⌊(134217728 / 10 : ℝ)⌋ = 13421772 by norm_num [Int.floor_eq_iff]]
    norm_num
  have hround : round (134217728 / 10 : ℝ) = 13421773 := by
    rw [round_eq,
      show (134217728 / 10 : ℝ) + 1 / 2 = 134217733 / 10 by ring]
    norm_num [Int.floor_eq_iff]
  rw [rne, if_neg hfract, hround]
  norm_num

/-- C4, counterexample: on a 1x1 tile whose lazy value is 1/10 (not
representable in binary32), the materialized tile returns the narrowed
value 13421773/2^27, not the lazy value, so the materialized variant is not
value-identical to the lazy form even in bounds. -/
theorem materialize_claim_counterexample :
    (SlopeAngleTile.mk 1 1 fun _ _ => some (1 / 10)).materialize.get 0 0 ≠
      (SlopeAngleTile.mk 1 1 fun _ _ => some (1 / 10)).get 0 0 := by
  have h0 := materializeData_getElem
    (SlopeAngleTile.mk 1 1 fun _ _ => some (1 / 10)) 0 0 (by norm_num) (by norm_num)
  have hdata :
      (SlopeAngleTile.mk 1 1 fun _ _ => some (1 / 10)).materialize.get 0 0 =
        some (f32round (1 / 10)) := by
    show (if 0 ≤ (0 : ℤ) * (((SlopeAngleTile.mk 1 1 fun _ _ => some (1 / 10)).width : ℕ) : ℤ) + 0 then
        ((materializeData (SlopeAngleTile.mk 1 1 fun _ _ => some (1 / 10)))[
          ((0 : ℤ) * (((SlopeAngleTile.mk 1 1 fun _ _ => some (1 / 10)).width : ℕ) : ℤ) + 0).toNat]?).getD none
      else none) = _
    rw [if_pos (by norm_num)]
    norm_num at h0 ⊢
    rw [h0]
    rfl
  rw [hdata, f32round_tenth]
  intro h
  have h2 := Option.some.inj h
  norm_num at h2

/-- C8: the materialized tile performs no bounds check in its get: reading
at x = width (one past the right edge of row y) lands on the backing-array
slot of pixel (0, y + 1), whose stored (narrowed) value it returns instead
of the NaN an in-bounds-only accessor would produce. -/
theorem materialize_out_of_bounds_wraps (t : SlopeAngleTile) (y : ℤ)
    (hy0 : 0 ≤ y) (hy : y < (t.height : ℤ) - 1) (hw : 0 < t.width) :
    (t.materialize).get (t.width : ℤ) y =
      Option.map f32round (t.get 0 (y + 1)) := by
  lift y to ℕ using hy0 with b
  have hb : b + 1 < t.height := by omega
  show (if 0 ≤ (b : ℤ) * (t.width : ℤ) + (t.width : ℤ) then
      ((materializeData t)[((b : ℤ) * (t.width : ℤ) + (t.width : ℤ)).toNat]?).getD none
    else none) = _
  rw [if_pos (by positivity),
    show ((b : ℤ) * (t.width : ℤ) + (t.width : ℤ)).toNat = (b + 1) * t.width + 0 by
      rw [show ((b : ℤ) * (t.width : ℤ) + (t.width : ℤ)) =
          (((b + 1) * t.width + 0 : ℕ) : ℤ) by push_cast; ring, Int.toNat_natCast],
    materializeData_getElem t 0 (b + 1) hw hb, Option.getD_some]
  norm_num

/-- C8 witness: a concrete 1x2 tile; reading at (width, 0) = (1, 0) returns
the stored value of pixel (0, 1). -/
theorem materialize_out_of_bounds_wraps_witness :
    (0 : ℤ) ≤ 0 ∧
      (0 : ℤ) < (((SlopeAngleTile.mk 1 2 fun _ y => some y).height : ℕ) : ℤ) - 1 ∧
      0 < (SlopeAngleTile.mk 1 2 fun _ y => some y).width ∧
      (SlopeAngleTile.mk 1 2 fun _ y => some y).materialize.get 1 0 =
        Option.map f32round ((SlopeAngleTile.mk 1 2 fun _ y => some y).get 0 1) :=
  ⟨le_refl 0, by norm_num, by norm_num,
    materialize_out_of_bounds_wraps (SlopeAngleTile.mk 1 2 fun _ y => some y)
      0 (le_refl 0) (by norm_num) (by norm_num)⟩

/-- The decimal rendering of a positive number: Nat.toDigitsCore (with
enough fuel) produces the base-10 digits, most significant first, in front
of the accumulator. -/
theorem toDigitsCore_eq_digits :
    ∀ (fuel n : ℕ) (ds : List Char), 0 < n → n ≤ fuel →
      Nat.toDigitsCore 10 fuel n ds =
        ((Nat.digits 10 n).map Nat.digitChar).reverse ++ ds
  | 0, _, _, h0, hf => absurd (Nat.lt_of_lt_of_le h0 hf) (Nat.lt_irrefl 0)
  | fuel + 1, n, ds, h0, hf => by
    rw [Nat.toDigitsCore]
    by_cases hq : n / 10 = 0
    · have hn10 : n < 10 := by omega
      rw [if_pos hq, Nat.digits_def' (by norm_num) h0, hq, Nat.digits_zero,
        Nat.mod_eq_of_lt hn10]
      simp
    · rw [if_neg hq]
      have hqpos : 0 < n / 10 := Nat.pos_of_ne_zero hq
      have hqle : n / 10 ≤ fuel := by
        have := Nat.div_lt_self h0 (by norm_num : 1 < 10)
        omega
      rw [toDigitsCore_eq_digits fuel (n / 10) _ hqpos hqle,
        Nat.digits_def' (by norm_num) h0]
      simp

/-- Nat.repr of a positive number is the reversed digit list rendered with
digitChar. -/
theorem natRepr_pos_eq (n : ℕ) (h0 : 0 < n) :
    Nat.repr n = (((Nat.digits 10 n).map Nat.digitChar).reverse).asString := by
  rw [Nat.repr, Nat.toDigits,
    toDigitsCore_eq_digits (n + 1) n [] h0 (Nat.le_succ n), List.append_nil]

/-- digitChar distinguishes decimal digits. -/
theorem digitChar_inj_lt_ten : ∀ a < 10, ∀ b < 10,
    Nat.digitChar a = Nat.digitChar b → a = b := by decide

/-- Mapping digitChar over lists of decimal digits is injective. -/
theorem map_digitChar_inj :
    ∀ (l1 l2 : List ℕ), (∀ d ∈ l1, d < 10) → (∀ d ∈ l2, d < 10) →
      l1.map Nat.digitChar = l2.map Nat.digitChar → l1 = l2
  | [], [], _, _, _ => rfl
  | [], _ :: _, _, _, h => by simp at h
  | _ :: _, [], _, _, h => by simp at h
  | a :: l1, b :: l2, h1, h2, h => by
    rw [List.map_cons, List.map_cons] at h
    have hab : a = b := digitChar_inj_lt_ten a (h1 a (List.mem_cons_self a l1))
      b (h2 b (List.mem_cons_self b l2)) (List.head_eq_of_cons_eq h)
    have htl := map_digitChar_inj l1 l2
      (fun d hd => h1 d (List.mem_cons_of_mem a hd))
      (fun d hd => h2 d (List.mem_cons_of_mem b hd))
      (List.tail_eq_of_cons_eq h)
    rw [hab, htl]

/-- The decimal rendering Nat.repr (what string interpolation of a number
performs) is injective. -/
theorem natRepr_injective : Function.Injective Nat.repr := by
  have key : ∀ m n : ℕ, 0 < m → 0 < n → Nat.repr m = Nat.repr n → m = n := by
    intro m n hm hn h
    rw [natRepr_pos_eq m hm, natRepr_pos_eq n hn] at h
    have hdata := congrArg String.data h
    simp only [List.asString] at hdata
    have hrev := List.reverse_injective hdata
    have hdig := map_digitChar_inj _ _
      (fun d hd => Nat.digits_lt_base (by norm_num) hd)
      (fun d hd => Nat.digits_lt_base (by norm_num) hd) hrev
    have := congrArg (Nat.ofDigits 10) hdig
    rwa [Nat.ofDigits_digits, Nat.ofDigits_digits] at this
  have zero_case : ∀ n : ℕ, 0 < n → Nat.repr n ≠ Nat.repr 0 := by
    intro n hn h
    rw [natRepr_pos_eq n hn] at h
    have hdata := congrArg String.data h
    simp only [List.asString] at hdata
    have h0 : (Nat.repr 0).data = ['0'] := rfl
    rw [h0] at hdata
    have hrev : (Nat.digits 10 n).map Nat.digitChar = ['0'] := by
      have := congrArg List.reverse hdata
      rwa [List.reverse_reverse] at this
    match hd : Nat.digits 10 n, hrev' : (Nat.digits 10 n).map Nat.digitChar with
    | [], _ =>
      have : n = 0 := by
        have := congrArg (Nat.ofDigits 10) hd
        rwa [Nat.ofDigits_digits] at this
      omega
    | d :: rest, _ =>
      rw [hd, List.map_cons] at hrev
      have hrest : rest.map Nat.digitChar = [] := List.tail_eq_of_cons_eq hrev
      have hrestnil : rest = [] := by
        cases rest with
        | nil => rfl
        | cons a l => simp at hrest
      have hdchar : Nat.digitChar d = '0' := List.head_eq_of_cons_eq hrev
      have hdlt : d < 10 := Nat.digits_lt_base (by norm_num)
        (by rw [hd]; exact List.mem_cons_self d rest)
      have hd0 : d = 0 := digitChar_inj_lt_ten d hdlt 0 (by norm_num) hdchar
      have : n = Nat.ofDigits 10 (Nat.digits 10 n) := (Nat.ofDigits_digits 10 n).symm
      rw [hd, hrestnil, hd0] at this
      simp [Nat.ofDigits] at this
      omega
  intro m n h
  rcases Nat.eq_zero_or_pos m with hm | hm <;> rcases Nat.eq_zero_or_pos n with hn | hn
  · rw [hm, hn]
  · exact absurd (hm ▸ h).symm (zero_case n hn)
  · exact absurd (hn ▸ h) (zero_case m hm)
  · exact key m n hm hn h

/-- For a fixed base id, distinct attempts produce distinct candidate
strings. -/
theorem candidate_injective (id : String) : Function.Injective (candidate id) := by
  have hner : ∀ k : ℕ, (Nat.repr (k + 1)).data ≠ [] := by
    intro k h
    have := congrArg List.length (congrArg String.data (natRepr_pos_eq (k + 1) (Nat.succ_pos k)))
    rw [h] at this
    simp only [List.asString, List.length_reverse, List.length_map,
      List.length_nil] at this
    have hne : Nat.digits 10 (k + 1) ≠ [] :=
      Nat.digits_ne_nil_iff_ne_zero.mpr (Nat.succ_ne_zero k)
    have hlen : (Nat.digits 10 (k + 1)).length ≠ 0 :=
      fun hl => hne (List.length_eq_zero.mp hl)
    omega
  intro j k h
  match j, k with
  | 0, 0 => rfl
  | 0, k + 1 =>
    exfalso
    have hdata := congrArg String.data h
    rw [show candidate id 0 = id from rfl,
      show candidate id (k + 1) = id ++ Nat.repr (k + 1) from rfl,
      String.data_append] at hdata
    exact hner k (List.append_right_eq_self.mp hdata.symm)
  | j + 1, 0 =>
    exfalso
    have hdata := congrArg String.data h
    rw [show candidate id 0 = id from rfl,
      show candidate id (j + 1) = id ++ Nat.repr (j + 1) from rfl,
      String.data_append] at hdata
    exact hner j (List.append_right_eq_self.mp hdata)
  | j + 1, k + 1 =>
    have hdata := congrArg String.data h
    rw [show candidate id (j + 1) = id ++ Nat.repr (j + 1) from rfl,
      show candidate id (k + 1) = id ++ Nat.repr (k + 1) from rfl,
      String.data_append, String.data_append] at hdata
    have := natRepr_injective (String.ext (List.append_cancel_left hdata))
    omega

/-- If some attempt within the fuel budget is free, the loop returns a
string outside the registry. -/
theorem freshAux_not_mem (used : Finset String) (id : String) :
    ∀ (fuel k : ℕ), (∃ j, k ≤ j ∧ j ≤ k + fuel ∧ candidate id j ∉ used) →
      freshAux used id fuel k ∉ used
  | 0, k, ⟨j, hjk, hjf, hj⟩ => by
    rw [freshAux, show k = j from le_antisymm hjk (by omega)]
    exact hj
  | fuel + 1, k, ⟨j, hjk, hjf, hj⟩ => by
    rw [freshAux]
    by_cases hc : candidate id k ∈ used
    · rw [if_pos hc]
      refine freshAux_not_mem used id fuel (k + 1) ⟨j, ?_, by omega, hj⟩
      rcases Nat.eq_or_lt_of_le hjk with hkj | hkj
      · exact absurd (hkj ▸ hc) hj
      · omega
    · rwa [if_neg hc]

/-- Pigeonhole: among the first card(used) + 1 candidate strings, at least
one is not registered. -/
theorem exists_free_candidate (used : Finset String) (id : String) :
    ∃ j ≤ used.card, candidate id j ∉ used := by
  by_contra hcon
  push_neg at hcon
  have hsub : (Finset.range (used.card + 1)).image (candidate id) ⊆ used := by
    intro s hs
    rcases Finset.mem_image.mp hs with ⟨j, hj, rfl⟩
    have hj2 := Finset.mem_range.mp hj
    exact hcon j (by omega)
  have hcard := Finset.card_le_card hsub
  rw [Finset.card_image_of_injective _ (candidate_injective id),
    Finset.card_range] at hcard
  omega

/-- The constructor's dedup loop always lands on an unregistered string. -/
theorem dedupBase_not_mem (used : Finset String) (id : String) :
    dedupBase used id ∉ used := by
  obtain ⟨j, hj, hfree⟩ := exists_free_candidate used id
  exact freshAux_not_mem used id (used.card + 1) 0
    ⟨j, Nat.zero_le j, by omega, hfree⟩

/-- C7: constructing twice with the same base id yields distinct
slopeProtocolId values (the second construction's dedup loop skips every
registered base, in particular the first construction's), and from a fresh
registry the base "slope" yields "slope-slope" and then "slope1-slope". -/
theorem constructSlopeAngleSource_distinct :
    (∀ (used : Finset String) (id : String),
      (constructSlopeAngleSource used id).1 ≠
        (constructSlopeAngleSource (constructSlopeAngleSource used id).2 id).1) ∧
    (constructSlopeAngleSource ∅ "slope").1 = "slope-slope" ∧
    (constructSlopeAngleSource (constructSlopeAngleSource ∅ "slope").2 "slope").1 =
      "slope1-slope" := by
  refine ⟨?_, by decide, by decide⟩
  intro used id h
  have hbase : dedupBase used id =
      dedupBase (insert (dedupBase used id) used) id := by
    have hdata := congrArg String.data h
    rw [constructSlopeAngleSource, constructSlopeAngleSource,
      String.data_append, String.data_append] at hdata
    exact String.ext (List.append_cancel_right hdata)
  have hmem := dedupBase_not_mem (insert (dedupBase used id) used) id
  rw [← hbase] at hmem
  exact hmem (Finset.mem_insert_self _ _)

/-- Distinct counter values give distinct correlation ids. -/
theorem mkId_injective : Function.Injective mkId := by
  intro j k h
  have hdata := congrArg String.data h
  rw [mkId, mkId, String.data_append, String.data_append] at hdata
  exact natRepr_injective (String.ext (List.append_cancel_left hdata))

/-- Any recorded invocation for id came from a message bearing id. -/
theorem runMessages_mem_msgs {R P : Type} :
    ∀ (msgs : List (String × P)) (st : BridgeState R) (id : String) (r : R)
      (p : P), (id, r, p) ∈ (runMessages st msgs).2 → (id, p) ∈ msgs
  | [], _, _, _, _, h => absurd h (List.not_mem_nil _)
  | (id0, p0) :: rest, st, id, r, p, h => by
    rw [runMessages] at h
    rcases List.mem_append.mp h with hhead | htail
    · cases hcb : st.callbacks id0 with
      | none =>
        rw [show (onMessage st id0 p0).2 =
          Option.map (fun r => (id0, r, p0)) (st.callbacks id0) from rfl,
          hcb] at hhead
        exact absurd hhead (List.not_mem_nil _)
      | some r0 =>
        rw [show (onMessage st id0 p0).2 =
          Option.map (fun r => (id0, r, p0)) (st.callbacks id0) from rfl,
          hcb] at hhead
        have hhead2 : (id, r, p) ∈ [(id0, r0, p0)] := hhead
        have heq := List.mem_singleton.mp hhead2
        rw [show id = id0 from congrArg Prod.fst heq,
          show p = p0 from congrArg (fun q => q.2.2) heq]
        exact List.mem_cons_self _ _
    · exact List.mem_cons_of_mem _
        (runMessages_mem_msgs rest (onMessage st id0 p0).1 id r p htail)

/-- If id is pending with resolver r and some message bears id, the
resolver r is invoked (with the first such message's payload). -/
theorem runMessages_resolves {R P : Type} :
    ∀ (msgs : List (String × P)) (st : BridgeState R) (id : String) (r : R),
      st.callbacks id = some r → (∃ p, (id, p) ∈ msgs) →
        ∃ p, (id, r, p) ∈ (runMessages st msgs).2
  | [], _, _, _, _, ⟨_, hmem⟩ => absurd hmem (List.not_mem_nil _)
  | (id0, p0) :: rest, st, id, r, hcb, ⟨p, hmem⟩ => by
    rw [runMessages]
    by_cases hid : id0 = id
    · subst hid
      refine ⟨p0, List.mem_append.mpr (Or.inl ?_)⟩
      rw [onMessage, hcb]
      exact List.mem_cons_self _ _
    · have hcb1 : ((onMessage st id0 p0).1).callbacks id = some r := by
        show (if id = id0 then none else st.callbacks id) = some r
        rw [if_neg fun h => hid h.symm]
        exact hcb
      have hmem1 : ∃ q, (id, q) ∈ rest := by
        rcases List.mem_cons.mp hmem with hh | ht
        · exact absurd (congrArg Prod.fst hh).symm hid
        · exact ⟨p, ht⟩
      rcases runMessages_resolves rest (onMessage st id0 p0).1 id r hcb1 hmem1
        with ⟨q, hq⟩
      exact ⟨q, List.mem_append.mpr (Or.inr hq)⟩

/-- C5: in the RPC bridge, (a) the id a delegated getData call mints is
fresh — no pending resolver uses it — and the call registers the resolver
under it, bumps the counter, and preserves the freshness invariant;
(b) a message matching a pending resolver invokes exactly that resolver
once and removes it; (c) a message matching no pending resolver is ignored
silently (no invocation, table unchanged). -/
theorem bridge_correlation (R P : Type) (st : BridgeState R) (url : String)
    (resolve : R) (id : String) (payload : P)
    (hinv : BridgeInv st) (hurl : ¬ ("https://".data <+: url.data)) :
    (st.callbacks (mkId st.counter) = none ∧
      (getData st url resolve).1.callbacks (mkId st.counter) = some resolve ∧
      (getData st url resolve).1.counter = st.counter + 1 ∧
      BridgeInv (getData st url resolve).1) ∧
    (∀ r : R, st.callbacks id = some r →
      (onMessage st id payload).2 = some (id, r, payload) ∧
      (onMessage st id payload).1.callbacks id = none) ∧
    (st.callbacks id = none →
      (onMessage st id payload).2 = none ∧
      (onMessage st id payload).1.callbacks = st.callbacks) := by
  have hgd : getData st url resolve =
      (⟨st.counter + 1,
          fun s => if s = mkId st.counter then some resolve else st.callbacks s⟩,
        GetDataOutcome.pending (mkId st.counter)) := by
    rw [getData, if_neg hurl]
  refine ⟨⟨?_, ?_, ?_, ?_⟩, ?_, ?_⟩
  · by_cases hsome : (st.callbacks (mkId st.counter)).isSome
    · rcases hinv _ hsome with ⟨k, hk, heq⟩
      exact absurd (mkId_injective heq) (by omega)
    · exact Option.not_isSome_iff_eq_none.mp hsome
  · rw [hgd]
    show (if mkId st.counter = mkId st.counter then some resolve
      else st.callbacks (mkId st.counter)) = some resolve
    rw [if_pos rfl]
  · rw [hgd]
  · rw [hgd]
    intro s hsome
    show ∃ k < st.counter + 1, s = mkId k
    have hsome2 : (if s = mkId st.counter then some resolve
        else st.callbacks s).isSome := hsome
    by_cases hs : s = mkId st.counter
    · exact ⟨st.counter, by omega, hs⟩
    · rw [if_neg hs] at hsome2
      rcases hinv s hsome2 with ⟨k, hk, heq⟩
      exact ⟨k, by omega, heq⟩
  · intro r hr
    refine ⟨?_, ?_⟩
    · show Option.map (fun r => (id, r, payload)) (st.callbacks id) =
        some (id, r, payload)
      rw [hr]
      rfl
    · show (if id = id then none else st.callbacks id) = none
      rw [if_pos rfl]
  · intro hnone
    refine ⟨?_, funext fun s => ?_⟩
    · show Option.map (fun r => (id, r, payload)) (st.callbacks id) = none
      rw [hnone]
      rfl
    · show (if s = id then none else st.callbacks s) = st.callbacks s
      by_cases hs : s = id
      · rw [if_pos hs, hs, hnone]
      · rw [if_neg hs]

/-- stOne satisfies the bridge invariant. -/
theorem stOne_inv : BridgeInv stOne := by
  intro s hsome
  by_cases hs : s = mkId 0
  · exact ⟨0, Nat.one_pos, hs⟩
  · exfalso
    rw [show stOne.callbacks s = if s = mkId 0 then some 7 else none from rfl,
      if_neg hs] at hsome
    simp at hsome

/-- C5 witness: the bridge-correlation statement evaluated on stOne with a
non-https url and the pending id. -/
theorem bridge_correlation_witness :
    BridgeInv stOne ∧ ¬ ("https://".data <+: "dem://5/10/10".data) ∧
      (stOne.callbacks (mkId stOne.counter) = none ∧
        (getData stOne "dem://5/10/10" 7).1.callbacks (mkId stOne.counter) =
          some 7 ∧
        (getData stOne "dem://5/10/10" 7).1.counter = stOne.counter + 1 ∧
        BridgeInv (getData stOne "dem://5/10/10" 7).1) ∧
      (∀ r : ℕ, stOne.callbacks (mkId 0) = some r →
        (onMessage stOne (mkId 0) (42 : ℕ)).2 = some (mkId 0, r, 42) ∧
        (onMessage stOne (mkId 0) (42 : ℕ)).1.callbacks (mkId 0) = none) ∧
      (stOne.callbacks (mkId 0) = none →
        (onMessage stOne (mkId 0) (42 : ℕ)).2 = none ∧
        (onMessage stOne (mkId 0) (42 : ℕ)).1.callbacks = stOne.callbacks) :=
  ⟨stOne_inv, by decide,
    bridge_correlation ℕ ℕ stOne "dem://5/10/10" 7 (mkId 0) 42 stOne_inv
      (by decide)⟩

/-- C9: for a url outside the trusted https scheme, getData returns a
pending promise under a freshly minted id, with the resolver registered;
the promise resolves exactly when a message bearing that id arrives (it has
no rejection path); and when the host-side handler fails — no handler for
the scheme, or a handler rejection — the responder posts no reply at all,
so nothing ever bears the id and the promise stays pending forever. -/
theorem getData_non_https (R P : Type) (st : BridgeState R) (url : String)
    (resolve : R) (hurl : ¬ ("https://".data <+: url.data)) :
    ((getData st url resolve).2 = GetDataOutcome.pending (mkId st.counter) ∧
      (getData st url resolve).1.callbacks (mkId st.counter) = some resolve) ∧
    (∀ msgs : List (String × P),
      (∃ p, (mkId st.counter, resolve, p) ∈
          (runMessages (getData st url resolve).1 msgs).2) ↔
        ∃ p, (mkId st.counter, p) ∈ msgs) ∧
    (∀ getProtocol : String → Option (String → Except String P),
      (getProtocol url = none →
        hostMessageHandler getProtocol (mkId st.counter) url =
          Except.error "No registered protocol handler for undefined") ∧
      (∀ protocol e, getProtocol url = some protocol →
        protocol url = Except.error e →
        hostMessageHandler getProtocol (mkId st.counter) url =
          Except.error e)) := by
  have hgd : getData st url resolve =
      (⟨st.counter + 1,
          fun s => if s = mkId st.counter then some resolve else st.callbacks s⟩,
        GetDataOutcome.pending (mkId st.counter)) := by
    rw [getData, if_neg hurl]
  have hreg : (getData st url resolve).1.callbacks (mkId st.counter) =
      some resolve := by
    rw [hgd]
    show (if mkId st.counter = mkId st.counter then some resolve
      else st.callbacks (mkId st.counter)) = some resolve
    rw [if_pos rfl]
  refine ⟨⟨by rw [hgd], hreg⟩, ?_, ?_⟩
  · intro msgs
    constructor
    · rintro ⟨p, hp⟩
      exact ⟨p, runMessages_mem_msgs msgs _ _ _ _ hp⟩
    · rintro ⟨p, hp⟩
      exact runMessages_resolves msgs _ _ _ hreg ⟨p, hp⟩
  · intro getProtocol
    have hns : "maplibre-contours-get-data-".data <+: (mkId st.counter).data := by
      rw [mkId, String.data_append]
      exact List.prefix_append _ _
    constructor
    · intro hnone
      rw [hostMessageHandler, if_neg (not_not_intro hns), hnone]
    · intro protocol e hsome herr
      rw [hostMessageHandler, if_neg (not_not_intro hns), hsome]
      show (match protocol url with
        | Except.error e => Except.error e
        | Except.ok result => Except.ok (some (mkId st.counter, result))) =
        Except.error e
      rw [herr]

/-- C9 witness: the statement evaluated on a fresh bridge state, a dem://
url, resolver 5, a single matching message, and an empty handler registry. -/
theorem getData_non_https_witness :
    ¬ ("https://".data <+: "dem://9/3/3".data) ∧
      (getData (⟨0, fun _ => none⟩ : BridgeState ℕ) "dem://9/3/3" 5).2 =
        GetDataOutcome.pending (mkId 0) ∧
      ((∃ p, (mkId 0, 5, p) ∈
          (runMessages (getData (⟨0, fun _ => none⟩ : BridgeState ℕ)
            "dem://9/3/3" 5).1 [(mkId 0, (99 : ℕ))]).2) ↔
        ∃ p, (mkId 0, p) ∈ [(mkId 0, (99 : ℕ))]) ∧
      hostMessageHandler
          (fun _ => (none : Option (String → Except String ℕ)))
          (mkId 0) "dem://9/3/3" =
        Except.error "No registered protocol handler for undefined" :=
  ⟨by decide,
    (getData_non_https ℕ ℕ ⟨0, fun _ => none⟩ "dem://9/3/3" 5 (by decide)).1.1,
    (getData_non_https ℕ ℕ ⟨0, fun _ => none⟩ "dem://9/3/3" 5
      (by decide)).2.1 [(mkId 0, 99)],
    ((getData_non_https ℕ ℕ ⟨0, fun _ => none⟩ "dem://9/3/3" 5
      (by decide)).2.2 (fun _ => (none : Option (String → Except String ℕ)))).1
      rfl⟩

/-- C3, counterexample: when the center fetch rejects with "boom", the
request rejects with the fresh "Center tile is required but was not
available" error, not with the center fetch's own error, so the center's
rejection reason is not propagated as the claim states. -/
theorem slopeProtocolV4_center_error_counterexample :
    slopeProtocolV4 fetchCenterBoom [] 0 0 0 45 30 =
        Except.error "Center tile is required but was not available" ∧
      fetchCenterBoom 0 0 0 = Except.error "boom" ∧
      "Center tile is required but was not available" ≠ "boom" := by
  refine ⟨rfl, rfl, by decide⟩

/-- C3, amended: provided the registered timing callbacks do not throw,
a center-slot rejection makes the whole request reject — with the fresh
center-missing error, the fetch's own reason being discarded — while
rejections confined to non-center slots leave the request fulfilled with an
encoded buffer, every slot's outcome being captured independently. -/
theorem slopeProtocolV4_center_mandatory
    (fetchAndParseTile : ℤ → ℤ → ℤ → Except String HeightTile)
    (timingCallbacks : List (Timing → Except String Unit))
    (z x y : ℤ) (maxAngle pixelSize : ℝ)
    (hcbs : ∀ t, runCallbacks timingCallbacks t = Except.ok ()) :
    (∀ e, fetchAndParseTile z x y = Except.error e →
      slopeProtocolV4 fetchAndParseTile timingCallbacks z x y maxAngle pixelSize =
        Except.error "Center tile is required but was not available") ∧
    (∀ d, fetchAndParseTile z x y = Except.ok d →
      ∃ r, slopeProtocolV4 fetchAndParseTile timingCallbacks z x y maxAngle
        pixelSize = Except.ok r) := by
  constructor
  · intro e he
    rw [slopeProtocolV4]
    simp only [List.map_cons, List.map_nil, he, hcbs,
      HeightTile.combineNeighbors]
  · intro d hd
    rw [slopeProtocolV4]
    simp only [List.map_cons, List.map_nil, hd, hcbs,
      HeightTile.combineNeighbors]
    exact ⟨_, rfl⟩

/-- C3 witness: with no timing callbacks and an all-fulfilling fetch, the
request fulfils. -/
theorem slopeProtocolV4_center_mandatory_witness :
    (∀ t, runCallbacks [] t = Except.ok ()) ∧
      ∃ r, slopeProtocolV4 (fun _ _ _ => Except.ok flatTile) [] 0 0 0 45 30 =
        Except.ok r :=
  ⟨fun _ => rfl,
    (slopeProtocolV4_center_mandatory (fun _ _ _ => Except.ok flatTile) []
      0 0 0 45 30 (fun _ => rfl)).2 flatTile rfl⟩

/-- C6: a timing callback that throws replaces the request's completion.
The same request that fulfils with no callbacks registered (left conjunct)
rejects with the callback's own error once a throwing callback is
registered (right conjunct), so the underlying successful outcome does not
propagate unchanged as the specification demands: the finally-block forEach
lets the callback's exception escape. -/
theorem slopeProtocolV4_timing_callback_throws :
    (∃ r, slopeProtocolV4 (fun _ _ _ => Except.ok flatTile) [] 0 0 0 45 30 =
      Except.ok r) ∧
    slopeProtocolV4 (fun _ _ _ => Except.ok flatTile)
        [fun _ => Except.error "callback-failure"] 0 0 0 45 30 =
      Except.error "callback-failure" :=
  ⟨⟨_, rfl⟩, rfl⟩

/-- C10: when v4 fulfils and the legacy callback throws on its success
invocation, v3compat invokes the callback a second time, passing the thrown
value as the error argument — two invocations, not one. -/
theorem v3compat_double_invocation (r : SlopeResponse)
    (callback : V3Call → Except String Unit) (e : String)
    (h : callback (V3Call.success r) = Except.error e) :
    v3compatInvocations (Except.ok r) callback =
      [V3Call.success r, V3Call.failure e] := by
  rw [v3compatInvocations, h]

/-- C10 witness: a concrete callback that throws "thrown" on success calls. -/
theorem v3compat_double_invocation_witness :
    (fun c => match c with
      | V3Call.success _ => Except.error "thrown"
      | V3Call.failure _ => Except.ok ())
        (V3Call.success ⟨[], "public, max-age=3600"⟩) =
      Except.error "thrown" ∧
    v3compatInvocations (Except.ok ⟨[], "public, max-age=3600"⟩)
        (fun c => match c with
          | V3Call.success _ => Except.error "thrown"
          | V3Call.failure _ => Except.ok ()) =
      [V3Call.success ⟨[], "public, max-age=3600"⟩, V3Call.failure "thrown"] :=
  ⟨rfl, v3compat_double_invocation ⟨[], "public, max-age=3600"⟩
    (fun c => match c with
      | V3Call.success _ => Except.error "thrown"
      | V3Call.failure _ => Except.ok ()) "thrown" rfl⟩

end MaplibreContour


